import Mathlib

/-!
Shallow embedding of the log-retrieval engine in
`backend/lib/api/logs/utils.py`.

Files are modelled as their character contents (`List Char`); the byte-wise
reverse scan is modelled over characters, which coincides with the source for
ASCII/UTF-8-single-byte content.  Fallible Python code (exceptions) is
modelled with `Except String`.
-/

namespace LogUtils

/-- Python `\w` over ASCII text: letters, digits, underscore. -/
def isWordChar (c : Char) : Bool :=
  c.isAlpha || c.isDigit || c = '_'

/-- Python `\s` over ASCII text: space, tab, newline, carriage return,
vertical tab, form feed. -/
def isSpaceChar (c : Char) : Bool :=
  c = ' ' || c = '\t' || c = '\n' || c = '\r' || c = '\x0b' || c = '\x0c'

/-- Character class of the source group `[\w\s\.]`. -/
def isSourceChar (c : Char) : Bool :=
  isWordChar c || isSpaceChar c || c = '.'

/-- Character class of the parenthesized qualifier `[\w\s]`. -/
def isQualChar (c : Char) : Bool :=
  isWordChar c || isSpaceChar c

/-- `SEVERITY_LEVELS`: the dict mapping severity names to the numeric
constants of Python's `logging` module (`DEBUG`=10 … `CRITICAL`=50);
a missing key is `none` (Python raises `KeyError`). -/
def SEVERITY_LEVELS (s : String) : Option Nat :=
  if s = "DEBUG" then some 10
  else if s = "INFO" then some 20
  else if s = "WARNING" then some 30
  else if s = "ERROR" then some 40
  else if s = "CRITICAL" then some 50
  else none

/-- A parsed log entry (`LogEntry` in `models.py`): timestamp, severity
token, source and message, all strings. -/
structure LogEntry where
  timestamp : String
  severity : String
  source : String
  message : String
deriving DecidableEq, Repr

/-- Consume one literal character. -/
def matchLit (c : Char) : List Char → Option (List Char)
  | [] => none
  | d :: cs => if d = c then some cs else none

/-- Consume exactly `n` digit characters (`\d{n}`), returning them and the
rest. -/
def matchDigits : Nat → List Char → Option (List Char × List Char)
  | 0, cs => some ([], cs)
  | _ + 1, [] => none
  | n + 1, c :: cs =>
    if c.isDigit then (matchDigits n cs).map (fun p => (c :: p.1, p.2)) else none

/-- The timestamp part `\d{4}-\d{2}-\d{2} \d{2}:\d{2}:\d{2}` of
`LOG_CAPTURE_PATTERN`; the capture includes the separators. -/
def matchTimestamp (cs : List Char) : Option (List Char × List Char) := do
  let (d1, cs) ← matchDigits 4 cs
  let cs ← matchLit '-' cs
  let (d2, cs) ← matchDigits 2 cs
  let cs ← matchLit '-' cs
  let (d3, cs) ← matchDigits 2 cs
  let cs ← matchLit ' ' cs
  let (d4, cs) ← matchDigits 2 cs
  let cs ← matchLit ':' cs
  let (d5, cs) ← matchDigits 2 cs
  let cs ← matchLit ':' cs
  let (d6, cs) ← matchDigits 2 cs
  return (d1 ++ '-' :: d2 ++ '-' :: d3 ++ ' ' :: d4 ++ ':' :: d5 ++ ':' :: d6, cs)

/-- The source group `([\w\s\.]+(?: \([\w\s]+\))?): ` of
`LOG_CAPTURE_PATTERN`.  The greedy class run is deterministic up to one
backtracking step: the optional qualifier can only match when the maximal
run ends with a space immediately followed by `(` (every other split puts a
class character where `(` or `:` is required). -/
def matchSource (cs : List Char) : Option (List Char × List Char) :=
  let run := cs.takeWhile isSourceChar
  let rest := cs.dropWhile isSourceChar
  if run = [] then none
  else
    match rest with
    | ':' :: ' ' :: rest2 => some (run, rest2)
    | '(' :: rest2 =>
      if run.getLast? = some ' ' ∧ run.dropLast ≠ [] then
        let inner := rest2.takeWhile isQualChar
        let rest3 := rest2.dropWhile isQualChar
        if inner = [] then none
        else
          match rest3 with
          | ')' :: ':' :: ' ' :: rest4 => some (run ++ '(' :: (inner ++ [')']), rest4)
          | _ => none
      else none
    | _ => none

/-- Everything of `LOG_CAPTURE_PATTERN` up to (and including) the `": "`
before the message: returns the three captures and the remaining input,
or `none` when the line does not match the grammar. -/
def matchHeader (cs : List Char) :
    Option (List Char × List Char × List Char × List Char) := do
  let cs ← matchLit '[' cs
  let (ts, cs) ← matchTimestamp cs
  let cs ← matchLit ']' cs
  let cs ← matchLit ' ' cs
  let cs ← matchLit '[' cs
  let tok := cs.takeWhile isWordChar
  let cs := cs.dropWhile isWordChar
  if tok = [] then none
  else do
    let cs := cs.dropWhile isSpaceChar
    let cs ← matchLit ']' cs
    let cs ← matchLit ' ' cs
    let (src, cs) ← matchSource cs
    return (ts, tok, src, cs)

/-- The final `(.+)` group: without `DOTALL` the dot excludes `\n`, with
`DOTALL` it matches everything; `re.match` does not anchor the end, so
only non-emptiness is required. -/
def matchMessage (dotall : Bool) (cs : List Char) : Option (List Char) :=
  if dotall then
    if cs = [] then none else some cs
  else
    let run := cs.takeWhile (fun c => c ≠ '\n')
    if run = [] then none else some run

/-- `re.match(LOG_CAPTURE_PATTERN, line)` as a function on characters,
parameterized by the `DOTALL` flag; returns the four captured groups. -/
def parseLogLineChars (dotall : Bool) (cs : List Char) :
    Option (List Char × List Char × List Char × List Char) := do
  let (ts, tok, src, rest) ← matchHeader cs
  let msg ← matchMessage dotall rest
  return (ts, tok, src, msg)

/-- `is_start_of_log_entry`: match without `DOTALL`, test only success. -/
def is_start_of_log_entry (line : String) : Bool :=
  (parseLogLineChars false line.data).isSome

/-- `parse_log_line`: match with `DOTALL`, return the four groups. -/
def parse_log_line (log_line : String) :
    Option (String × String × String × String) :=
  (parseLogLineChars true log_line.data).map
    (fun q => (String.mk q.1, String.mk q.2.1, String.mk q.2.2.1, String.mk q.2.2.2))

/-- `line.replace("\r", "\n")`: the pattern is a single character, so the
replacement is character-wise. -/
def replaceCR (s : String) : String :=
  String.mk (s.data.map (fun c => if c = '\r' then '\n' else c))

/-- The loop of `read_logs_in_desc_order`: the first argument is the file
content reversed (the backward byte cursor), the second the accumulator
`buffer` (most recently read byte first; `[]` entries model empty `read`
results at end-of-file, which Python appends to the buffer). -/
def revScanGo : List Char → List (List Char) → List String
  | [], buf => if buf.isEmpty then [] else [String.mk buf.flatten]
  | c :: rest, buf =>
    if c = '\n' && !buf.isEmpty then
      let line := String.mk buf.flatten
      if is_start_of_log_entry line then
        replaceCR line :: revScanGo rest []
      else
        revScanGo rest buf
    else
      revScanGo rest ([c] :: buf)

/-- `read_logs_in_desc_order`: seek to end of file and scan backward.  The
initial `read(1)` at end-of-file returns the empty bytes object, which is
appended to the buffer before any real byte is read — hence the initial
accumulator `[[]]`. -/
def read_logs_in_desc_order (file : List Char) : List String :=
  revScanGo file.reverse [[]]

/-- Auxiliary for forward line iteration: split after every `'\n'`,
keeping the terminator; `acc` holds the current line reversed. -/
def splitLinesKeepAux : List Char → List Char → List String
  | [], acc => if acc.isEmpty then [] else [String.mk acc.reverse]
  | c :: rest, acc =>
    if c = '\n' then
      String.mk (acc.reverse ++ ['\n']) :: splitLinesKeepAux rest []
    else
      splitLinesKeepAux rest (c :: acc)

/-- Python text-file iteration (`for log_line in log_file`): physical lines
in order, each including its terminator; a final unterminated piece is
yielded if non-empty. -/
def splitLinesKeep (cs : List Char) : List String :=
  splitLinesKeepAux cs []

/-- Order of retrieval. -/
inductive LogOrder
  | asc
  | desc
deriving DecidableEq, Repr

/-- `read_logs_as_generator`: forward line iteration for `asc`, the
reverse scanner for `desc`. -/
def read_logs_as_generator (file : List Char) (order : LogOrder) : List String :=
  match order with
  | .asc => splitLinesKeep file
  | .desc => read_logs_in_desc_order file

/-- The `for log_line in log_generator` loop of `read_logs`, accumulating
into `logs` (appended at the tail, as the Python list is).  A failed
`SEVERITY_LEVELS` lookup is the Python `KeyError`. -/
def readLoop (severity_level : Nat) (amount : Nat) :
    List String → List LogEntry → Except String (List LogEntry)
  | [], logs => .ok logs
  | line :: rest, logs =>
    if line.data.all isSpaceChar then
      readLoop severity_level amount rest logs
    else
      match parse_log_line line with
      | none =>
        match logs.getLast? with
        | none => readLoop severity_level amount rest logs
        | some prev =>
          match SEVERITY_LEVELS prev.severity with
          | none => .error "KeyError"
          | some lvl =>
            if lvl ≤ severity_level then
              readLoop severity_level amount rest
                (logs.dropLast ++ [{ prev with message := prev.message ++ line }])
            else
              readLoop severity_level amount rest logs
      | some q =>
        if logs.length < amount then
          match SEVERITY_LEVELS q.2.1 with
          | none => .error "KeyError"
          | some lvl =>
            if lvl ≤ severity_level then
              readLoop severity_level amount rest
                (logs ++ [⟨q.1, q.2.1, q.2.2.1, q.2.2.2⟩])
            else
              readLoop severity_level amount rest logs
        else
          .ok logs

/-- `read_logs`: the file argument stands for the content of
`backend/logs/<log_name>.log`. -/
def read_logs (file : List Char) (amount : Nat) (severity : String)
    (order : LogOrder) : Except String (List LogEntry) :=
  match SEVERITY_LEVELS severity with
  | none => .error "KeyError"
  | some severity_level =>
    readLoop severity_level amount (read_logs_as_generator file order) []

/-- A catalog record (`LogFile` in `models.py`). -/
structure LogFile where
  name : String
  amount : Nat
deriving DecidableEq, Repr

/-- A file on disk as the catalog sees it: stem, extension, and either its
content or a read error (`Except.error` models the raised exception). -/
structure DiskFile where
  name : String
  ext : String
  content : Except String (List Char)
deriving Repr

/-- `get_log_file_names_on_disk`: keep the files with the `.log` suffix. -/
def get_log_file_names_on_disk (files : List DiskFile) : List DiskFile :=
  files.filter (fun f => f.ext = ".log")

/-- `get_amount_of_logs`: count the lines of text iteration; the
`except` clauses log and re-raise, so an error propagates unchanged. -/
def get_amount_of_logs (f : DiskFile) : Except String Nat :=
  f.content.map (fun cs => (splitLinesKeep cs).length)

/-- `create_log_file_object`. -/
def create_log_file_object (log_file : DiskFile) : Except String LogFile :=
  (get_amount_of_logs log_file).map (fun n => ⟨log_file.name, n⟩)

/-- `create_log_files_object`: the loop body has no exception handling, so
the first failing file aborts the whole listing (modelled by `mapM` in
`Except`). -/
def create_log_files_object (files : List DiskFile) :
    Except String (List LogFile) :=
  (get_log_file_names_on_disk files).mapM create_log_file_object

/-- The `LogEntry` constructed by `read_logs` from a matched line. -/
def parsedEntry (s : String) : Option LogEntry :=
  (parse_log_line s).map (fun q => ⟨q.1, q.2.1, q.2.2.1, q.2.2.2⟩)

/-- Drop the final character of an entry's message. -/
def stripLastChar (e : LogEntry) : LogEntry :=
  { e with message := String.mk e.message.data.dropLast }

/-- A well-formed single-line log entry: non-empty, free of line
terminators, and parsed by the grammar with a severity token the level
table knows. -/
def WFLine (l : List Char) : Prop :=
  l ≠ [] ∧ (∀ c ∈ l, c ≠ '\n' ∧ c ≠ '\r') ∧
    ∃ ts tok src msg lvl, parseLogLineChars true l = some (ts, tok, src, msg) ∧
      SEVERITY_LEVELS (String.mk tok) = some lvl

/-- Whether a line is an entry start whose severity passes the gate
`SEVERITY_LEVELS[log_level] <= severity_level` of `read_logs`. -/
def passesGate (severity_level : Nat) (s : String) : Bool :=
  match parse_log_line s with
  | some q =>
    match SEVERITY_LEVELS q.2.1 with
    | some el => el ≤ severity_level
    | none => false
  | none => false

/-- The number of entry-start lines of a line sequence that pass the
severity gate. -/
def countPassing (severity_level : Nat) (ls : List String) : Nat :=
  (ls.filter (passesGate severity_level)).length

/-- A line sequence is free of `KeyError`: every line that parses carries a
severity token known to `SEVERITY_LEVELS`. -/
def tokenKnown (s : String) : Bool :=
  match parse_log_line s with
  | some q => (SEVERITY_LEVELS q.2.1).isSome
  | none => true

lemma matchLit_some {c : Char} {cs rest : List Char} (h : matchLit c cs = some rest) :
    cs = c :: rest := by
  cases cs with
  | nil => simp [matchLit] at h
  | cons d t =>
    simp only [matchLit] at h
    split at h
    · next hdc => simp_all
    · simp at h

lemma matchLit_append {c : Char} {cs rest : List Char} (ys : List Char)
    (h : matchLit c cs = some rest) : matchLit c (cs ++ ys) = some (rest ++ ys) := by
  rw [matchLit_some h]
  simp [matchLit]

lemma matchDigits_some : ∀ {n : Nat} {cs ds rest : List Char},
    matchDigits n cs = some (ds, rest) → cs = ds ++ rest := by
  intro n
  induction n with
  | zero => intro cs ds rest h; simp [matchDigits] at h; simp [h.1, h.2]
  | succ m ih =>
    intro cs ds rest h
    cases cs with
    | nil => simp [matchDigits] at h
    | cons c t =>
      simp only [matchDigits] at h
      split at h
      · simp only [Option.map_eq_some'] at h
        obtain ⟨⟨ds0, r0⟩, hm, hp⟩ := h
        cases hp
        simpa using (ih hm)
      · simp at h

lemma matchDigits_append : ∀ {n : Nat} {cs ds rest : List Char} (ys : List Char),
    matchDigits n cs = some (ds, rest) → matchDigits n (cs ++ ys) = some (ds, rest ++ ys) := by
  intro n
  induction n with
  | zero => intro cs ds rest ys h; simp_all [matchDigits]
  | succ m ih =>
    intro cs ds rest ys h
    cases cs with
    | nil => simp [matchDigits] at h
    | cons c t =>
      simp only [matchDigits] at h
      split at h
      · next hd =>
        simp only [Option.map_eq_some'] at h
        obtain ⟨⟨ds0, r0⟩, hm, hp⟩ := h
        cases hp
        simp only [List.cons_append, matchDigits, hd, if_true, List.append_eq]
        rw [ih ys hm]
        rfl
      · simp at h

lemma matchTimestamp_append {cs ts rest : List Char} (ys : List Char)
    (h : matchTimestamp cs = some (ts, rest)) :
    matchTimestamp (cs ++ ys) = some (ts, rest ++ ys) := by
  simp only [matchTimestamp, bind, Option.bind_eq_some, Option.pure_def,
    Option.some.injEq, Prod.mk.injEq] at h ⊢
  obtain ⟨⟨d1, c1⟩, h1, c1b, h2, ⟨d2, c2⟩, h3, c2b, h4, ⟨d3, c3⟩, h5, c3b, h6,
    ⟨d4, c4⟩, h7, c4b, h8, ⟨d5, c5⟩, h9, c5b, h10, ⟨d6, c6⟩, h11, hts, hrest⟩ := h
  obtain rfl : c6 = rest := by simpa using hrest
  exact ⟨_, matchDigits_append ys h1, _, matchLit_append ys h2,
    _, matchDigits_append ys h3, _, matchLit_append ys h4,
    _, matchDigits_append ys h5, _, matchLit_append ys h6,
    _, matchDigits_append ys h7, _, matchLit_append ys h8,
    _, matchDigits_append ys h9, _, matchLit_append ys h10,
    _, matchDigits_append ys h11, hts, rfl⟩




lemma span_append_of_drop_ne {p : Char → Bool} :
    ∀ {xs : List Char} (ys : List Char), xs.dropWhile p ≠ [] →
      (xs ++ ys).takeWhile p = xs.takeWhile p ∧
      (xs ++ ys).dropWhile p = xs.dropWhile p ++ ys := by
  intro xs
  induction xs with
  | nil => intro ys h; simp [List.dropWhile] at h
  | cons c t ih =>
    intro ys h
    by_cases hc : p c
    · simp only [List.dropWhile_cons, hc, if_true] at h
      have := ih ys h
      simp only [List.cons_append, List.takeWhile_cons, List.dropWhile_cons, hc,
        if_true, this.1, this.2, and_self]
    · simp only [List.cons_append, List.takeWhile_cons, List.dropWhile_cons, hc,
        Bool.false_eq_true, if_false, and_self]

lemma matchTimestamp_some {cs ts rest : List Char}
    (h : matchTimestamp cs = some (ts, rest)) : cs = ts ++ rest := by
  simp only [matchTimestamp, bind, Option.bind_eq_some, Option.pure_def,
    Option.some.injEq, Prod.mk.injEq] at h
  obtain ⟨⟨d1, c1⟩, h1, c1b, h2, ⟨d2, c2⟩, h3, c2b, h4, ⟨d3, c3⟩, h5, c3b, h6,
    ⟨d4, c4⟩, h7, c4b, h8, ⟨d5, c5⟩, h9, c5b, h10, ⟨d6, c6⟩, h11, hts, hrest⟩ := h
  obtain rfl : c6 = rest := by simpa using hrest
  have e1 := matchDigits_some h1
  have e2 := matchLit_some h2
  have e3 := matchDigits_some h3
  have e4 := matchLit_some h4
  have e5 := matchDigits_some h5
  have e6 := matchLit_some h6
  have e7 := matchDigits_some h7
  have e8 := matchLit_some h8
  have e9 := matchDigits_some h9
  have e10 := matchLit_some h10
  have e11 := matchDigits_some h11
  subst hts
  simp only at e1 e2 e3 e4 e5 e6 e7 e8 e9 e10 e11
  simp [e1, e2, e3, e4, e5, e6, e7, e8, e9, e10, e11]

lemma matchSource_some {cs src rest : List Char}
    (h : matchSource cs = some (src, rest)) : cs = src ++ ':' :: ' ' :: rest := by
  simp only [matchSource] at h
  split at h
  · exact absurd h (by simp)
  · next hrun =>
    split at h
    · next heq =>
      -- rest = ':' :: ' ' :: rest2
      simp only [Option.some.injEq, Prod.mk.injEq] at h
      obtain ⟨rfl, rfl⟩ := h
      conv_lhs => rw [← List.takeWhile_append_dropWhile (p := isSourceChar) (l := cs)]
      rw [heq]
    · next rest2 heq =>
      -- '(' case
      split at h
      · split at h
        · exact absurd h (by simp)
        · next hinner =>
          split at h
          · next rest4 heq3 =>
            simp only [Option.some.injEq, Prod.mk.injEq] at h
            obtain ⟨rfl, rfl⟩ := h
            conv_lhs => rw [← List.takeWhile_append_dropWhile (p := isSourceChar) (l := cs)]
            rw [heq]
            conv_lhs => rw [← List.takeWhile_append_dropWhile (p := isQualChar) (l := rest2)]
            rw [heq3]
            simp
          · exact absurd h (by simp)
      · exact absurd h (by simp)
    · exact absurd h (by simp)




lemma matchSource_append {cs src rest : List Char} (ys : List Char)
    (h : matchSource cs = some (src, rest)) :
    matchSource (cs ++ ys) = some (src, rest ++ ys) := by
  simp only [matchSource] at h
  split at h
  · exact absurd h (by simp)
  · next hrun =>
    split at h
    · next rest2 heq =>
      simp only [Option.some.injEq, Prod.mk.injEq] at h
      obtain ⟨rfl, rfl⟩ := h
      have hdrop : cs.dropWhile isSourceChar ≠ [] := by rw [heq]; simp
      obtain ⟨hts, hds⟩ := span_append_of_drop_ne (p := isSourceChar) ys hdrop
      simp only [matchSource, hts, hds, heq, hrun, if_false]
      rfl
    · next rest2 heq =>
      split at h
      · next hqual =>
        split at h
        · exact absurd h (by simp)
        · next hinner =>
          split at h
          · next rest4 heq3 =>
            simp only [Option.some.injEq, Prod.mk.injEq] at h
            obtain ⟨rfl, rfl⟩ := h
            have hdrop : cs.dropWhile isSourceChar ≠ [] := by rw [heq]; simp
            obtain ⟨hts, hds⟩ := span_append_of_drop_ne (p := isSourceChar) ys hdrop
            have hdrop3 : rest2.dropWhile isQualChar ≠ [] := by rw [heq3]; simp
            obtain ⟨hti, hdi⟩ := span_append_of_drop_ne (p := isQualChar) ys hdrop3
            simp only [matchSource, hts, hds, heq, hrun, if_false, List.cons_append,
              hti, hdi, heq3, hqual, if_true, hinner]
            simp [hqual.2]
          · exact absurd h (by simp)
      · exact absurd h (by simp)
    · exact absurd h (by simp)

lemma matchHeader_some {cs ts tok src rest : List Char}
    (h : matchHeader cs = some (ts, tok, src, rest)) :
    ∃ pre, cs = pre ++ rest := by
  simp only [matchHeader, bind, Option.bind_eq_some, Option.pure_def,
    Option.some.injEq, Prod.mk.injEq] at h
  obtain ⟨cs1, h1, ⟨ts0, cs2⟩, h2, cs3, h3, cs4, h4, cs5, h5, h6⟩ := h
  split at h6
  · exact absurd h6 (by simp)
  · simp only [Option.bind_eq_some, Option.some.injEq, Prod.mk.injEq] at h6
    obtain ⟨cs6, h7, cs7, h8, ⟨src0, cs8⟩, h9, hts, htok, hsrc, hrest⟩ := h6
    simp only at h9 hts htok hsrc hrest
    subst hts htok hsrc hrest
    have e1 := matchLit_some h1
    have e2 := matchTimestamp_some h2
    have e3 := matchLit_some h3
    have e4 := matchLit_some h4
    have e5 := matchLit_some h5
    have e7 := matchLit_some h7
    have e8 := matchLit_some h8
    have e9 := matchSource_some h9
    simp only at e2 e3 e4 e5 e7 e8 e9
    set S := (cs5.dropWhile isWordChar).takeWhile isSpaceChar with hS
    refine ⟨'[' :: ts0 ++ ']' :: ' ' :: '[' ::
      (cs5.takeWhile isWordChar ++ (S ++ (']' :: ' ' :: (src0 ++ [':', ' '])))), ?_⟩
    rw [e1, e2, e3, e4, e5]
    have e6 : cs5.dropWhile isWordChar = S ++ (']' :: cs6) := by
      rw [hS]
      conv_lhs => rw [← List.takeWhile_append_dropWhile (p := isSpaceChar)
        (l := cs5.dropWhile isWordChar)]
      rw [e7]
    conv_lhs => rw [← List.takeWhile_append_dropWhile (p := isWordChar) (l := cs5)]
    rw [e6, e8, e9]
    simp

lemma matchHeader_append {cs ts tok src rest : List Char} (ys : List Char)
    (h : matchHeader cs = some (ts, tok, src, rest)) :
    matchHeader (cs ++ ys) = some (ts, tok, src, rest ++ ys) := by
  simp only [matchHeader, bind, Option.bind_eq_some, Option.pure_def,
    Option.some.injEq, Prod.mk.injEq] at h
  obtain ⟨cs1, h1, ⟨ts0, cs2⟩, h2, cs3, h3, cs4, h4, cs5, h5, h6⟩ := h
  split at h6
  · exact absurd h6 (by simp)
  · next htok =>
    simp only [Option.bind_eq_some, Option.some.injEq, Prod.mk.injEq] at h6
    obtain ⟨cs6, h7, cs7, h8, ⟨src0, cs8⟩, h9, hts, htok2, hsrc, hrest⟩ := h6
    simp only at h9 hts htok2 hsrc hrest
    subst hts htok2 hsrc hrest
    simp only at h3 h7 h8 h9
    -- span stability for the word-char run and the space run
    have hdw : cs5.dropWhile isWordChar ≠ [] := by
      intro hn; rw [hn] at h7; simp [List.dropWhile, matchLit] at h7
    have hds : (cs5.dropWhile isWordChar).dropWhile isSpaceChar ≠ [] := by
      intro hn; rw [hn] at h7; simp [matchLit] at h7
    obtain ⟨hw1, hw2⟩ := span_append_of_drop_ne (p := isWordChar) ys hdw
    obtain ⟨hs1, hs2⟩ := span_append_of_drop_ne (p := isSpaceChar) ys hds
    simp only [matchHeader, bind, Option.bind_eq_some, Option.pure_def,
      Option.some.injEq, Prod.mk.injEq]
    refine ⟨cs1 ++ ys, matchLit_append ys h1, (ts0, cs2 ++ ys),
      matchTimestamp_append ys h2, cs3 ++ ys, matchLit_append ys h3,
      cs4 ++ ys, matchLit_append ys h4, cs5 ++ ys, matchLit_append ys h5, ?_⟩
    rw [hw1, if_neg htok]
    rw [hw2, hs2]
    simp only [bind, Option.bind_eq_some, Option.pure_def, Option.some.injEq,
      Prod.mk.injEq]
    refine ⟨cs6 ++ ys, matchLit_append ys h7, cs7 ++ ys, matchLit_append ys h8,
      (src0, cs8 ++ ys), matchSource_append ys h9, ?_⟩
    simp



lemma parse_true_elim {cs ts tok src msg : List Char}
    (h : parseLogLineChars true cs = some (ts, tok, src, msg)) :
    matchHeader cs = some (ts, tok, src, msg) ∧ msg ≠ [] := by
  simp only [parseLogLineChars, bind, Option.bind_eq_some, Option.pure_def,
    Option.some.injEq, Prod.mk.injEq] at h
  obtain ⟨⟨ts0, tok0, src0, rest0⟩, hh, m0, hm, hts, htok, hsrc, hmsg⟩ := h
  simp only at hm hts htok hsrc hmsg
  subst hts htok hsrc hmsg
  simp only [matchMessage, if_true] at hm
  split at hm
  · exact absurd hm (by simp)
  · next hne =>
    simp only [Option.some.injEq] at hm
    subst hm
    exact ⟨hh, hne⟩

lemma parse_false_elim {cs ts tok src msg : List Char}
    (h : parseLogLineChars false cs = some (ts, tok, src, msg)) :
    ∃ rest, matchHeader cs = some (ts, tok, src, rest) ∧
      msg = rest.takeWhile (fun c => c ≠ '\n') ∧ msg ≠ [] := by
  simp only [parseLogLineChars, bind, Option.bind_eq_some, Option.pure_def,
    Option.some.injEq, Prod.mk.injEq] at h
  obtain ⟨⟨ts0, tok0, src0, rest0⟩, hh, m0, hm, hts, htok, hsrc, hmsg⟩ := h
  simp only at hm hts htok hsrc hmsg
  subst hts htok hsrc hmsg
  simp only [matchMessage, Bool.false_eq_true, if_false] at hm
  split at hm
  · exact absurd hm (by simp)
  · next hne =>
    simp only [Option.some.injEq] at hm
    subst hm
    exact ⟨rest0, hh, rfl, hne⟩

lemma parse_true_intro {cs ts tok src msg : List Char}
    (hh : matchHeader cs = some (ts, tok, src, msg)) (hne : msg ≠ []) :
    parseLogLineChars true cs = some (ts, tok, src, msg) := by
  simp only [parseLogLineChars, bind, Option.bind_eq_some, Option.pure_def,
    Option.some.injEq]
  exact ⟨(ts, tok, src, msg), hh, msg, by simp [matchMessage, hne], rfl⟩

lemma parse_true_append {cs ts tok src msg : List Char} (ys : List Char)
    (h : parseLogLineChars true cs = some (ts, tok, src, msg)) :
    parseLogLineChars true (cs ++ ys) = some (ts, tok, src, msg ++ ys) := by
  obtain ⟨hh, hne⟩ := parse_true_elim h
  exact parse_true_intro (matchHeader_append ys hh) (by simp [hne])

lemma parse_cs_decomp {cs ts tok src msg : List Char}
    (h : parseLogLineChars true cs = some (ts, tok, src, msg)) :
    ∃ pre, cs = pre ++ msg := by
  obtain ⟨hh, _⟩ := parse_true_elim h
  exact matchHeader_some hh

lemma matchHeader_head {cs : List Char}
    {q : List Char × List Char × List Char × List Char}
    (h : matchHeader cs = some q) : ∃ t, cs = '[' :: t := by
  simp only [matchHeader, bind, Option.bind_eq_some] at h
  obtain ⟨cs1, h1, -⟩ := h
  exact ⟨cs1, matchLit_some h1⟩

lemma parse_head {d : Bool} {cs : List Char}
    {q : List Char × List Char × List Char × List Char}
    (h : parseLogLineChars d cs = some q) : ∃ t, cs = '[' :: t := by
  simp only [parseLogLineChars, bind, Option.bind_eq_some] at h
  obtain ⟨⟨ts0, tok0, src0, rest0⟩, hh, -⟩ := h
  exact matchHeader_head hh

lemma dotall_eq {cs : List Char} (h : ∀ c ∈ cs, c ≠ '\n') :
    parseLogLineChars true cs = parseLogLineChars false cs := by
  simp only [parseLogLineChars]
  cases hh : matchHeader cs with
  | none => rfl
  | some q =>
    obtain ⟨ts, tok, src, rest⟩ := q
    obtain ⟨pre, hpre⟩ := matchHeader_some hh
    have hrest : ∀ c ∈ rest, c ≠ '\n' := by
      intro c hc
      exact h c (by rw [hpre]; exact List.mem_append_right pre hc)
    have htw : rest.takeWhile (fun c => c ≠ '\n') = rest := by
      rw [List.takeWhile_eq_self_iff]
      intro x hx
      simpa using hrest x hx
    simp only [bind, Option.some_bind, matchMessage, if_true,
      Bool.false_eq_true, if_false, htw]

lemma parse_not_blank {s : String}
    {q : String × String × String × String}
    (h : parse_log_line s = some q) : s.data.all isSpaceChar = false := by
  simp only [parse_log_line, Option.map_eq_some'] at h
  obtain ⟨⟨ts, tok, src, msg⟩, hp, -⟩ := h
  obtain ⟨t, ht⟩ := parse_head hp
  rw [ht]
  simp [isSpaceChar]





lemma WFLine.is_start {l : List Char} (h : WFLine l) :
    is_start_of_log_entry (String.mk l) = true := by
  obtain ⟨-, hno, ts, tok, src, msg, lvl, hp, -⟩ := h
  have hd : (String.mk l).data = l := rfl
  rw [is_start_of_log_entry, hd, ← dotall_eq (fun c hc => (hno c hc).1), hp]
  rfl

lemma replaceCR_of_no_cr {s : String} (h : ∀ c ∈ s.data, c ≠ '\r') :
    replaceCR s = s := by
  obtain ⟨l⟩ := s
  simp only [replaceCR]
  congr 1
  have hcg : ∀ c ∈ l, (fun c => if c = '\r' then '\n' else c) c = id c := by
    intro c hc
    simp only [id]
    rw [if_neg (h c hc)]
  rw [List.map_congr_left hcg, List.map_id]

lemma flatten_map_singleton : ∀ (l : List Char),
    (l.map (fun c => [c])).flatten = l := by
  intro l
  induction l with
  | nil => rfl
  | cons c t ih => simp [ih]

lemma revScan_accum : ∀ (seg : List Char) (rest : List Char)
    (buf : List (List Char)), (∀ c ∈ seg, c ≠ '\n') →
    revScanGo (seg ++ rest) buf
      = revScanGo rest ((seg.map (fun c => [c])).reverse ++ buf) := by
  intro seg
  induction seg with
  | nil => intro rest buf _; simp
  | cons c t ih =>
    intro rest buf h
    have hc : c ≠ '\n' := h c (List.mem_cons_self c t)
    have hcond : ¬((c = '\n' && !buf.isEmpty) = true) := by simp [hc]
    rw [List.cons_append]
    show (if (c = '\n' && !buf.isEmpty) = true then _ else revScanGo (t ++ rest) ([c] :: buf)) = _
    rw [if_neg hcond]
    rw [ih rest ([c] :: buf) (fun x hx => h x (List.mem_cons_of_mem c hx))]
    simp

lemma revScan_main : ∀ (linesRev : List (List Char)) (pre : List Char)
    (buf : List (List Char)),
    pre ≠ [] → (∀ c ∈ pre, c ≠ '\n' ∧ c ≠ '\r') →
    is_start_of_log_entry (String.mk pre) = true →
    (∀ l ∈ linesRev, WFLine l) →
    buf.flatten = pre → buf ≠ [] →
    revScanGo ((linesRev.map (fun l => '\n' :: l.reverse)).flatten) buf
      = String.mk pre :: linesRev.map (fun l => String.mk l) := by
  intro linesRev
  induction linesRev with
  | nil =>
    intro pre buf hne hno hstart hwf hflat hbufne
    have hb : ¬(buf.isEmpty = true) := by simpa [List.isEmpty_iff] using hbufne
    simp only [List.map_nil, List.flatten_nil, revScanGo]
    rw [if_neg hb, hflat]
  | cons l rst ih =>
    intro pre buf hne hno hstart hwf hflat hbufne
    have hb : (('\n' : Char) = '\n' && !buf.isEmpty) = true := by
      simp [List.isEmpty_iff, hbufne]
    simp only [List.map_cons, List.flatten_cons, List.cons_append]
    show (if (('\n' : Char) = '\n' && !buf.isEmpty) = true then
        if is_start_of_log_entry (String.mk buf.flatten) = true then
          replaceCR (String.mk buf.flatten) ::
            revScanGo (l.reverse ++ (rst.map (fun l => '\n' :: l.reverse)).flatten) []
        else revScanGo (l.reverse ++ (rst.map (fun l => '\n' :: l.reverse)).flatten) buf
      else _) = _
    rw [if_pos hb, hflat, if_pos hstart]
    have hwl : WFLine l := hwf l (List.mem_cons_self l rst)
    obtain ⟨hlne, hlno, -⟩ := hwl
    rw [revScan_accum l.reverse _ []
      (fun c hc => (hlno c (List.mem_reverse.mp hc)).1)]
    rw [List.map_reverse, List.reverse_reverse, List.append_nil]
    rw [ih l (l.map (fun c => [c])) hlne hlno (WFLine.is_start (hwf l (List.mem_cons_self l rst)))
      (fun x hx => hwf x (List.mem_cons_of_mem l hx))
      (flatten_map_singleton l) (by simp [hlne])]
    rw [replaceCR_of_no_cr (fun c hc => (hno c hc).2)]

lemma revScan_wf (lines : List (List Char)) (h : ∀ l ∈ lines, WFLine l)
    (hne : lines ≠ []) :
    read_logs_in_desc_order ((lines.map (fun l => l ++ ['\n'])).flatten)
      = lines.reverse.map (fun l => String.mk l) := by
  rw [read_logs_in_desc_order, List.reverse_flatten]
  have e1 : ((lines.map (fun l => l ++ ['\n'])).map List.reverse).reverse
      = lines.reverse.map (fun l => '\n' :: l.reverse) := by
    rw [← List.map_reverse, ← List.map_reverse, List.map_map]
    apply List.map_congr_left
    intro a _
    simp
  rw [e1]
  cases hrev : lines.reverse with
  | nil => exact absurd (List.reverse_eq_nil_iff.mp hrev) hne
  | cons lK rst =>
    have hKmem : lK ∈ lines := by
      rw [← List.mem_reverse, hrev]
      exact List.mem_cons_self lK rst
    have hK : WFLine lK := h lK hKmem
    obtain ⟨hKne, hKno, -⟩ := hK
    simp only [List.map_cons, List.flatten_cons, List.cons_append]
    have hempty : is_start_of_log_entry "" = false := by rfl
    show (if (('\n' : Char) = '\n' && !([[]] : List (List Char)).isEmpty) = true then
        if is_start_of_log_entry (String.mk ([[]] : List (List Char)).flatten) = true then
          replaceCR (String.mk ([[]] : List (List Char)).flatten) ::
            revScanGo (lK.reverse ++ (rst.map (fun l => '\n' :: l.reverse)).flatten) []
        else revScanGo (lK.reverse ++ (rst.map (fun l => '\n' :: l.reverse)).flatten) [[]]
      else _) = _
    rw [if_pos (by decide), if_neg (by simp [hempty])]
    rw [revScan_accum lK.reverse _ [[]]
      (fun c hc => (hKno c (List.mem_reverse.mp hc)).1)]
    rw [List.map_reverse, List.reverse_reverse]
    have hrstwf : ∀ x ∈ rst, WFLine x := by
      intro x hx
      refine h x ?_
      rw [← List.mem_reverse, hrev]
      exact List.mem_cons_of_mem lK hx
    rw [revScan_main rst lK (lK.map (fun c => [c]) ++ [[]]) hKne hKno
      (WFLine.is_start (h lK hKmem)) hrstwf
      (by simp [flatten_map_singleton]) (by simp)]

lemma splitLinesKeepAux_term : ∀ (l rest acc : List Char),
    (∀ c ∈ l, c ≠ '\n') →
    splitLinesKeepAux (l ++ '\n' :: rest) acc
      = String.mk (acc.reverse ++ l ++ ['\n']) :: splitLinesKeepAux rest [] := by
  intro l
  induction l with
  | nil => intro rest acc _; simp [splitLinesKeepAux]
  | cons c t ih =>
    intro rest acc h
    have hc : c ≠ '\n' := h c (List.mem_cons_self c t)
    rw [List.cons_append]
    show (if c = '\n' then _ else splitLinesKeepAux (t ++ '\n' :: rest) (c :: acc)) = _
    rw [if_neg hc, ih rest (c :: acc) (fun x hx => h x (List.mem_cons_of_mem c hx))]
    simp

lemma splitLinesKeep_flatten : ∀ (lines : List (List Char)),
    (∀ l ∈ lines, ∀ c ∈ l, c ≠ '\n') →
    splitLinesKeep ((lines.map (fun l => l ++ ['\n'])).flatten)
      = lines.map (fun l => String.mk (l ++ ['\n'])) := by
  intro lines
  induction lines with
  | nil => intro _; rfl
  | cons l rst ih =>
    intro h
    simp only [List.map_cons, List.flatten_cons, splitLinesKeep]
    rw [List.append_assoc, List.singleton_append,
      splitLinesKeepAux_term l _ [] (h l (List.mem_cons_self l rst))]
    rw [show splitLinesKeepAux ((rst.map (fun l => l ++ ['\n'])).flatten) [] =
      splitLinesKeep ((rst.map (fun l => l ++ ['\n'])).flatten) from rfl]
    rw [ih (fun x hx => h x (List.mem_cons_of_mem l hx))]
    simp






lemma SEVERITY_LEVELS_le_50 {s : String} {v : Nat}
    (h : SEVERITY_LEVELS s = some v) : v ≤ 50 := by
  simp only [SEVERITY_LEVELS] at h
  split_ifs at h
  all_goals simp_all
  all_goals omega

lemma readLoop_all_pass (lvl n : Nat) : ∀ (ls : List String) (logs : List LogEntry),
    (∀ s ∈ ls, ∃ e lvlE, parsedEntry s = some e ∧
      SEVERITY_LEVELS e.severity = some lvlE ∧ lvlE ≤ lvl) →
    logs.length + ls.length ≤ n →
    readLoop lvl n ls logs = .ok (logs ++ ls.filterMap parsedEntry) := by
  intro ls
  induction ls with
  | nil => intro logs _ _; simp [readLoop]
  | cons s t ih =>
    intro logs hall hlen
    obtain ⟨e, lvlE, hpe, hsev, hle⟩ := hall s (List.mem_cons_self s t)
    simp only [parsedEntry, Option.map_eq_some'] at hpe
    obtain ⟨q, hq, he⟩ := hpe
    have hblank : s.data.all isSpaceChar = false := parse_not_blank hq
    have hlt : logs.length < n := by
      simp only [List.length_cons] at hlen
      omega
    have hsevq : SEVERITY_LEVELS q.2.1 = some lvlE := by
      rw [← he] at hsev
      exact hsev
    simp only [readLoop, hblank, Bool.false_eq_true, if_false, hq]
    rw [if_pos hlt]
    simp only [hsevq]
    rw [if_pos hle]
    have step := ih (logs ++ [(⟨q.1, q.2.1, q.2.2.1, q.2.2.2⟩ : LogEntry)])
      (fun x hx => hall x (List.mem_cons_of_mem s hx))
      (by simp only [List.length_append, List.length_cons, List.length_nil] at hlen ⊢; omega)
    rw [step]
    rw [List.filterMap_cons]
    have hpe2 : parsedEntry s = some ⟨q.1, q.2.1, q.2.2.1, q.2.2.2⟩ := by
      simp [parsedEntry, hq]
    rw [hpe2]
    simp

lemma filterMap_all_some {α β : Type} {f : α → Option β} {g : α → β} :
    ∀ {l : List α}, (∀ a ∈ l, f a = some (g a)) → l.filterMap f = l.map g := by
  intro l
  induction l with
  | nil => intro _; rfl
  | cons a t ih =>
    intro h
    rw [List.filterMap_cons, h a (List.mem_cons_self a t), List.map_cons,
      ih (fun x hx => h x (List.mem_cons_of_mem a hx))]


lemma getLast?_mem {α : Type} {l : List α} {a : α} (h : l.getLast? = some a) :
    a ∈ l := by
  have hx : a ∈ l.getLast? := Option.mem_def.mpr h
  have hd := List.dropLast_append_getLast? a hx
  rw [← hd]
  exact List.mem_append_right _ (List.mem_singleton_self a)

lemma readLoop_gate (lvl n : Nat) : ∀ (ls : List String) (logs res : List LogEntry),
    (∀ e ∈ logs, ∃ el, SEVERITY_LEVELS e.severity = some el ∧ el ≤ lvl) →
    readLoop lvl n ls logs = .ok res →
    ∀ e ∈ res, ∃ el, SEVERITY_LEVELS e.severity = some el ∧ el ≤ lvl := by
  intro ls
  induction ls with
  | nil =>
    intro logs res hinv h
    simp only [readLoop, Except.ok.injEq] at h
    subst h
    exact hinv
  | cons line rest ih =>
    intro logs res hinv h
    simp only [readLoop] at h
    by_cases hb : line.data.all isSpaceChar = true
    · rw [if_pos hb] at h
      exact ih logs res hinv h
    · rw [if_neg hb] at h
      cases hp : parse_log_line line with
      | none =>
        simp only [hp] at h
        cases hg : logs.getLast? with
        | none =>
          simp only [hg] at h
          exact ih logs res hinv h
        | some prev =>
          simp only [hg] at h
          cases hs : SEVERITY_LEVELS prev.severity with
          | none => simp only [hs] at h; cases h
          | some pl =>
            simp only [hs] at h
            by_cases hpl : pl ≤ lvl
            · rw [if_pos hpl] at h
              refine ih _ res ?_ h
              intro e he
              rcases List.mem_append.mp he with h1 | h2
              · exact hinv e ((List.dropLast_sublist logs).subset h1)
              · rcases List.mem_singleton.mp h2 with rfl
                obtain ⟨el, hel, hle⟩ := hinv prev (getLast?_mem hg)
                exact ⟨el, hel, hle⟩
            · rw [if_neg hpl] at h
              exact ih logs res hinv h
      | some q =>
        simp only [hp] at h
        by_cases hlen : logs.length < n
        · rw [if_pos hlen] at h
          cases hs : SEVERITY_LEVELS q.2.1 with
          | none => simp only [hs] at h; cases h
          | some el =>
            simp only [hs] at h
            by_cases hel : el ≤ lvl
            · rw [if_pos hel] at h
              refine ih _ res ?_ h
              intro e he
              rcases List.mem_append.mp he with h1 | h2
              · exact hinv e h1
              · rcases List.mem_singleton.mp h2 with rfl
                exact ⟨el, hs, hel⟩
            · rw [if_neg hel] at h
              exact ih logs res hinv h
        · rw [if_neg hlen] at h
          simp only [Except.ok.injEq] at h
          subst h
          exact hinv

lemma readLoop_start_step (lvl n : Nat) (line : String) (rest : List String)
    (logs : List LogEntry) (ts tok src msg : String) (el : Nat)
    (hp : parse_log_line line = some (ts, tok, src, msg))
    (hs : SEVERITY_LEVELS tok = some el)
    (hlen : logs.length < n) :
    readLoop lvl n (line :: rest) logs =
      readLoop lvl n rest
        (if el ≤ lvl then logs ++ [⟨ts, tok, src, msg⟩] else logs) := by
  have hb := parse_not_blank hp
  simp only [readLoop, hb, Bool.false_eq_true, if_false, hp]
  rw [if_pos hlen]
  simp only [hs]
  by_cases hel : el ≤ lvl
  · rw [if_pos hel, if_pos hel]
  · rw [if_neg hel, if_neg hel]

lemma readLoop_cont_step (lvl n : Nat) (line : String) (rest : List String)
    (logs : List LogEntry) (prev : LogEntry) (pl : Nat)
    (hp : parse_log_line line = none)
    (hb : line.data.all isSpaceChar = false)
    (hg : logs.getLast? = some prev)
    (hs : SEVERITY_LEVELS prev.severity = some pl)
    (hpl : pl ≤ lvl) :
    readLoop lvl n (line :: rest) logs =
      readLoop lvl n rest
        (logs.dropLast ++ [{ prev with message := prev.message ++ line }]) := by
  simp only [readLoop, hb, Bool.false_eq_true, if_false, hp, hg, hs, if_pos hpl]

lemma readLoop_orphan_step (lvl n : Nat) (line : String) (rest : List String)
    (hp : parse_log_line line = none)
    (hb : line.data.all isSpaceChar = false) :
    readLoop lvl n (line :: rest) [] = readLoop lvl n rest [] := by
  simp only [readLoop, hb, Bool.false_eq_true, if_false, hp, List.getLast?_nil]

lemma readLoop_break (lvl n : Nat) (line : String) (rest : List String)
    (logs : List LogEntry) (q : String × String × String × String)
    (hp : parse_log_line line = some q)
    (hlen : n ≤ logs.length) :
    readLoop lvl n (line :: rest) logs = .ok logs := by
  have hb := parse_not_blank hp
  simp only [readLoop, hb, Bool.false_eq_true, if_false, hp]
  rw [if_neg (by omega)]

lemma countPassing_cons (lvl : Nat) (s : String) (t : List String) :
    countPassing lvl (s :: t)
      = (if passesGate lvl s = true then 1 else 0) + countPassing lvl t := by
  simp only [countPassing, List.filter_cons]
  by_cases hpg : passesGate lvl s = true
  · rw [if_pos hpg, if_pos hpg, List.length_cons]
    omega
  · rw [if_neg hpg, if_neg hpg]
    omega

lemma readLoop_len (lvl n : Nat) : ∀ (ls : List String) (logs : List LogEntry),
    (∀ s ∈ ls, tokenKnown s = true) →
    (∀ e ∈ logs, (SEVERITY_LEVELS e.severity).isSome = true) →
    logs.length ≤ n →
    ∃ res, readLoop lvl n ls logs = .ok res ∧
      res.length = min n (logs.length + countPassing lvl ls) := by
  intro ls
  induction ls with
  | nil =>
    intro logs _ _ hlen
    refine ⟨logs, rfl, ?_⟩
    simp only [countPassing, List.filter_nil, List.length_nil, Nat.add_zero]
    omega
  | cons line rest ih =>
    intro logs hknown hinv hlen
    rw [countPassing_cons]
    by_cases hb : line.data.all isSpaceChar = true
    · have hp : parse_log_line line = none := by
        cases hp : parse_log_line line with
        | none => rfl
        | some q => exact absurd hb (by simp [parse_not_blank hp])
      have hpg : passesGate lvl line = false := by
        simp only [passesGate, hp]
      obtain ⟨res, hres, hcount⟩ := ih logs
        (fun s hs => hknown s (List.mem_cons_of_mem line hs)) hinv hlen
      refine ⟨res, ?_, ?_⟩
      · simp only [readLoop, hb, if_true]
        exact hres
      · rw [hcount, hpg]
        simp
    · cases hp : parse_log_line line with
      | none =>
        have hpg : passesGate lvl line = false := by
          simp only [passesGate, hp]
        cases hg : logs.getLast? with
        | none =>
          obtain ⟨res, hres, hcount⟩ := ih logs
            (fun s hs => hknown s (List.mem_cons_of_mem line hs)) hinv hlen
          refine ⟨res, ?_, ?_⟩
          · simp only [readLoop, hb, Bool.false_eq_true, if_false, hp, hg]
            exact hres
          · rw [hcount, hpg]
            simp
        | some prev =>
          have hprev : (SEVERITY_LEVELS prev.severity).isSome = true :=
            hinv prev (getLast?_mem hg)
          obtain ⟨pl, hs⟩ := Option.isSome_iff_exists.mp hprev
          by_cases hpl : pl ≤ lvl
          · have hinv2 : ∀ e ∈ logs.dropLast ++
                [{ prev with message := prev.message ++ line }],
                (SEVERITY_LEVELS e.severity).isSome = true := by
              intro e he
              rcases List.mem_append.mp he with h1 | h2
              · exact hinv e ((List.dropLast_sublist logs).subset h1)
              · rcases List.mem_singleton.mp h2 with rfl
                exact hprev
            obtain ⟨res, hres, hcount⟩ := ih _
              (fun s hs => hknown s (List.mem_cons_of_mem line hs)) hinv2
              (by
                have : logs ≠ [] := by
                  intro hnil
                  rw [hnil] at hg
                  simp at hg
                simp only [List.length_append, List.length_cons, List.length_nil]
                rw [List.length_dropLast]
                have := List.length_pos_of_ne_nil this
                omega)
            refine ⟨res, ?_, ?_⟩
            · rw [readLoop_cont_step lvl n line rest logs prev pl hp
                (by simpa using hb) hg hs hpl]
              exact hres
            · rw [hcount, hpg]
              have hlendl : (logs.dropLast ++
                  [{ prev with message := prev.message ++ line }]).length
                  = logs.length := by
                have : logs ≠ [] := by
                  intro hnil
                  rw [hnil] at hg
                  simp at hg
                simp only [List.length_append, List.length_cons, List.length_nil]
                rw [List.length_dropLast]
                have := List.length_pos_of_ne_nil this
                omega
              rw [hlendl]
              simp
          · obtain ⟨res, hres, hcount⟩ := ih logs
              (fun s hs => hknown s (List.mem_cons_of_mem line hs)) hinv hlen
            refine ⟨res, ?_, ?_⟩
            · simp only [readLoop, hb, Bool.false_eq_true, if_false, hp, hg, hs,
                if_neg hpl]
              exact hres
            · rw [hcount, hpg]
              simp
      | some q =>
        have htk : (SEVERITY_LEVELS q.2.1).isSome = true := by
          have := hknown line (List.mem_cons_self line rest)
          simp only [tokenKnown, hp] at this
          exact this
        obtain ⟨el, hs⟩ := Option.isSome_iff_exists.mp htk
        by_cases hlt : logs.length < n
        · by_cases hel : el ≤ lvl
          · have hpg : passesGate lvl line = true := by
              simp only [passesGate, hp, hs]
              exact decide_eq_true hel
            have hinv2 : ∀ e ∈ logs ++ [(⟨q.1, q.2.1, q.2.2.1, q.2.2.2⟩ : LogEntry)],
                (SEVERITY_LEVELS e.severity).isSome = true := by
              intro e he
              rcases List.mem_append.mp he with h1 | h2
              · exact hinv e h1
              · rcases List.mem_singleton.mp h2 with rfl
                simpa using htk
            obtain ⟨res, hres, hcount⟩ := ih _
              (fun s hs => hknown s (List.mem_cons_of_mem line hs)) hinv2
              (by simp only [List.length_append, List.length_cons, List.length_nil]; omega)
            refine ⟨res, ?_, ?_⟩
            · have hq : parse_log_line line = some (q.1, q.2.1, q.2.2.1, q.2.2.2) := by
                rw [hp]
              rw [readLoop_start_step lvl n line rest logs q.1 q.2.1 q.2.2.1 q.2.2.2
                el hq hs hlt, if_pos hel]
              exact hres
            · rw [hcount, hpg]
              simp only [List.length_append, List.length_cons, List.length_nil, if_true]
              omega
          · have hpg : passesGate lvl line = false := by
              simp only [passesGate, hp, hs]
              exact decide_eq_false hel
            obtain ⟨res, hres, hcount⟩ := ih logs
              (fun s hs => hknown s (List.mem_cons_of_mem line hs)) hinv hlen
            refine ⟨res, ?_, ?_⟩
            · have hq : parse_log_line line = some (q.1, q.2.1, q.2.2.1, q.2.2.2) := by
                rw [hp]
              rw [readLoop_start_step lvl n line rest logs q.1 q.2.1 q.2.2.1 q.2.2.2
                el hq hs hlt, if_neg hel]
              exact hres
            · rw [hcount, hpg]
              simp
        · refine ⟨logs, readLoop_break lvl n line rest logs q hp (by omega), ?_⟩
          omega


lemma read_logs_unfold (file : List Char) (n : Nat) {sev : String} {lvl : Nat}
    (ord : LogOrder) (h : SEVERITY_LEVELS sev = some lvl) :
    read_logs file n sev ord
      = readLoop lvl n (read_logs_as_generator file ord) [] := by
  simp only [read_logs, h]

lemma revScan_drop (rest : List Char) (buf : List (List Char))
    (hne : buf ≠ [])
    (hns : is_start_of_log_entry (String.mk buf.flatten) = false) :
    revScanGo ('\n' :: rest) buf = revScanGo rest buf := by
  show (if (('\n' : Char) = '\n' && !buf.isEmpty) = true then
      if is_start_of_log_entry (String.mk buf.flatten) = true then
        replaceCR (String.mk buf.flatten) :: revScanGo rest []
      else revScanGo rest buf
    else _) = _
  rw [if_pos (by simp [List.isEmpty_iff, hne]), if_neg (by simp [hns])]

lemma parsedEntry_of_WF {l : List Char} (h : WFLine l) :
    ∃ ts tok src msg lvl,
      parseLogLineChars true l = some (ts, tok, src, msg) ∧
      SEVERITY_LEVELS (String.mk tok) = some lvl ∧
      parsedEntry (String.mk l)
        = some ⟨String.mk ts, String.mk tok, String.mk src, String.mk msg⟩ ∧
      parsedEntry (String.mk (l ++ ['\n']))
        = some ⟨String.mk ts, String.mk tok, String.mk src,
            String.mk (msg ++ ['\n'])⟩ := by
  obtain ⟨hne, hno, ts, tok, src, msg, lvl, hp, hsev⟩ := h
  refine ⟨ts, tok, src, msg, lvl, hp, hsev, ?_, ?_⟩
  · have hd : (String.mk l).data = l := rfl
    simp [parsedEntry, parse_log_line, hd, hp]
  · have hd : (String.mk (l ++ ['\n'])).data = l ++ ['\n'] := rfl
    simp [parsedEntry, parse_log_line, hd, parse_true_append ['\n'] hp]

/-- C1: the severity gate keeps an entry iff its numeric level is at most
the query level, under DEBUG(10) < INFO(20) < WARNING(30) < ERROR(40) <
CRITICAL(50): (a) every entry in any `read_logs` result passes the gate;
(b) an entry-start line scanned under the cap is appended iff its level is
at most the query level; (c) scenario A: an INFO line then an ERROR line,
queried with `{amount:10, severity:INFO, order:asc}`, returns only the
INFO entry. -/
theorem C1_severity_gate_direction :
    (∀ (file : List Char) (n : Nat) (sev : String) (lvl : Nat)
        (ord : LogOrder) (logs : List LogEntry) (e : LogEntry),
      SEVERITY_LEVELS sev = some lvl →
      read_logs file n sev ord = .ok logs → e ∈ logs →
      ∃ el, SEVERITY_LEVELS e.severity = some el ∧ el ≤ lvl) ∧
    (∀ (lvl n : Nat) (line : String) (rest : List String)
        (logs : List LogEntry) (ts tok src msg : String) (el : Nat),
      parse_log_line line = some (ts, tok, src, msg) →
      SEVERITY_LEVELS tok = some el → logs.length < n →
      readLoop lvl n (line :: rest) logs =
        readLoop lvl n rest
          (if el ≤ lvl then logs ++ [⟨ts, tok, src, msg⟩] else logs)) ∧
    read_logs ("[2024-01-01 00:00:00] [INFO ] mod: hello\n[2024-01-01 00:00:01] [ERROR ] mod: boom\n").data
        10 "INFO" .asc
      = .ok [⟨"2024-01-01 00:00:00", "INFO", "mod", "hello\n"⟩] := by
  refine ⟨?_, ?_, ?_⟩
  · intro file n sev lvl ord logs e hsev h he
    rw [read_logs_unfold file n ord hsev] at h
    exact readLoop_gate lvl n _ [] logs (by simp) h e he
  · intro lvl n line rest logs ts tok src msg el hp hs hlen
    exact readLoop_start_step lvl n line rest logs ts tok src msg el hp hs hlen
  · rfl

/-- Witness for C1 at concrete inputs: the INFO entry returned by
scenario A indeed passes the gate at level 20, and the step law applied to
the INFO line appends the parsed entry. -/
theorem C1_severity_gate_direction_witness :
    (∃ el, SEVERITY_LEVELS "INFO" = some el ∧ el ≤ 20) ∧
    readLoop 20 10 ["[2024-01-01 00:00:00] [INFO ] mod: hello\n"] [] =
      readLoop 20 10 []
        (if 20 ≤ 20 then
          [] ++ [⟨"2024-01-01 00:00:00", "INFO", "mod", "hello\n"⟩] else []) := by
  constructor
  · exact C1_severity_gate_direction.1
      ("[2024-01-01 00:00:00] [INFO ] mod: hello\n[2024-01-01 00:00:01] [ERROR ] mod: boom\n").data
      10 "INFO" 20 .asc
      [⟨"2024-01-01 00:00:00", "INFO", "mod", "hello\n"⟩]
      ⟨"2024-01-01 00:00:00", "INFO", "mod", "hello\n"⟩
      rfl C1_severity_gate_direction.2.2 (List.mem_singleton_self _)
  · exact C1_severity_gate_direction.2.1 20 10
      "[2024-01-01 00:00:00] [INFO ] mod: hello\n" [] []
      "2024-01-01 00:00:00" "INFO" "mod" "hello\n" 20 rfl rfl (by decide)

/-- C3: cap law — whenever every parsed severity token is known (no
`KeyError`), the result length is `min n (number of gate-passing
entry-start lines presented by the scanner)`; and once the result already
holds `amount` entries, the next entry-start line stops the loop with no
further consumption. -/
theorem C3_cap_law :
    (∀ (file : List Char) (n : Nat) (sev : String) (lvl : Nat) (ord : LogOrder),
      SEVERITY_LEVELS sev = some lvl → n ≤ 10000 →
      (∀ s ∈ read_logs_as_generator file ord, tokenKnown s = true) →
      ∃ res, read_logs file n sev ord = .ok res ∧
        res.length = min n (countPassing lvl (read_logs_as_generator file ord))) ∧
    (∀ (lvl n : Nat) (line : String) (rest : List String)
        (logs : List LogEntry) (q : String × String × String × String),
      parse_log_line line = some q → n ≤ logs.length →
      readLoop lvl n (line :: rest) logs = .ok logs) := by
  constructor
  · intro file n sev lvl ord hsev _ hknown
    rw [read_logs_unfold file n ord hsev]
    obtain ⟨res, hres, hcount⟩ :=
      readLoop_len lvl n (read_logs_as_generator file ord) [] hknown
        (by simp) (Nat.zero_le n)
    exact ⟨res, hres, by simpa using hcount⟩
  · intro lvl n line rest logs q hp hlen
    exact readLoop_break lvl n line rest logs q hp hlen

/-- Witness for C3 at concrete inputs: amount 1 against a two-entry file
returns min 1 2 = 1 entry, and a loop already holding one entry with
amount 1 stops at the next entry-start line. -/
theorem C3_cap_law_witness :
    (∃ res, read_logs ("[2024-01-01 00:00:00] [INFO ] mod: hello\n[2024-01-01 00:00:01] [ERROR ] mod: boom\n").data
        1 "CRITICAL" .asc = .ok res ∧
      res.length = min 1 (countPassing 50 (read_logs_as_generator
        ("[2024-01-01 00:00:00] [INFO ] mod: hello\n[2024-01-01 00:00:01] [ERROR ] mod: boom\n").data .asc))) ∧
    readLoop 50 1 ["[2024-01-01 00:00:01] [ERROR ] mod: boom\n"]
        [⟨"2024-01-01 00:00:00", "INFO", "mod", "hello\n"⟩]
      = .ok [⟨"2024-01-01 00:00:00", "INFO", "mod", "hello\n"⟩] := by
  constructor
  · exact C3_cap_law.1
      ("[2024-01-01 00:00:00] [INFO ] mod: hello\n[2024-01-01 00:00:01] [ERROR ] mod: boom\n").data
      1 "CRITICAL" 50 .asc rfl (by omega) (by decide)
  · exact C3_cap_law.2 50 1 "[2024-01-01 00:00:01] [ERROR ] mod: boom\n" []
      [⟨"2024-01-01 00:00:00", "INFO", "mod", "hello\n"⟩]
      ("2024-01-01 00:00:01", "ERROR", "mod", "boom\n") rfl (by decide)


/-- Counterexample to C4 as stated: in a file with an accepted INFO entry,
a rejected ERROR entry and a following continuation line, the continuation
text `"cont\n"` does appear in the output — appended to the earlier
accepted INFO entry's message. -/
theorem C4_rejected_isolation_counterexample :
    read_logs ("[2024-01-01 00:00:00] [INFO ] mod: hello\n[2024-01-01 00:00:01] [ERROR ] mod: boom\ncont\n").data
        10 "INFO" .asc
      = .ok [⟨"2024-01-01 00:00:00", "INFO", "mod", "hello\n" ++ "cont\n"⟩] ∧
    ("hello\n" ++ "cont\n" : String) ≠ "hello\n" := by
  exact ⟨rfl, by decide⟩

/-- C4 amended: a rejected entry-start is discarded and never mutated, but
a continuation line following it is appended to the message of the most
recently accepted entry (`logs[-1]`) whenever that entry's severity passes
the gate — which every accepted entry does; the continuation is dropped
only when nothing has been accepted yet. -/
theorem C4_rejected_isolation_amended :
    (∀ (lvl n : Nat) (line : String) (rest : List String)
        (logs : List LogEntry) (prev : LogEntry) (pl : Nat),
      parse_log_line line = none →
      line.data.all isSpaceChar = false →
      logs.getLast? = some prev →
      SEVERITY_LEVELS prev.severity = some pl → pl ≤ lvl →
      readLoop lvl n (line :: rest) logs =
        readLoop lvl n rest
          (logs.dropLast ++ [{ prev with message := prev.message ++ line }])) ∧
    (∀ (lvl n : Nat) (line : String) (rest : List String),
      parse_log_line line = none →
      line.data.all isSpaceChar = false →
      readLoop lvl n (line :: rest) [] = readLoop lvl n rest []) ∧
    read_logs ("[2024-01-01 00:00:00] [INFO ] mod: hello\n[2024-01-01 00:00:01] [ERROR ] mod: boom\ncont\n").data
        5 "INFO" .asc
      = .ok [⟨"2024-01-01 00:00:00", "INFO", "mod", "hello\ncont\n"⟩] := by
  exact ⟨readLoop_cont_step, readLoop_orphan_step, rfl⟩

/-- Witness for C4 amended at a concrete input: a continuation line after
the (rejected) ERROR entry is appended to the accepted INFO entry. -/
theorem C4_rejected_isolation_amended_witness :
    readLoop 20 7 ["cont\n"] [⟨"2024-01-01 00:00:00", "INFO", "mod", "hello\n"⟩]
      = readLoop 20 7 []
        ([(⟨"2024-01-01 00:00:00", "INFO", "mod", "hello\n"⟩ : LogEntry)].dropLast ++
          [⟨"2024-01-01 00:00:00", "INFO", "mod",
            ("hello\n" : String) ++ "cont\n"⟩]) := by
  exact C4_rejected_isolation_amended.1 20 7 "cont\n" []
    [⟨"2024-01-01 00:00:00", "INFO", "mod", "hello\n"⟩]
    ⟨"2024-01-01 00:00:00", "INFO", "mod", "hello\n"⟩ 20
    rfl (by decide) rfl rfl (by decide)

/-- Counterexample to C6 as stated: for the file `"a\nb\n"` (no entry
starts at all), the final reverse-yielded chunk is `"ab"` — the newline
read between `a` and `b` was discarded, not pushed, so the chunk does not
contain it. -/
theorem C6_newline_push_counterexample :
    read_logs_in_desc_order ("a\nb\n").data = ["ab"] ∧
    (["ab"] : List String) ≠ ["a\nb"] := by
  exact ⟨rfl, by decide⟩

/-- C6 amended: when a newline byte is read with a non-empty accumulator
whose reconstructed line is not an entry start, the accumulator is left
unchanged and the newline byte is discarded (not pushed), so multi-line
bodies are reassembled into a single reverse-yielded chunk without those
newlines. -/
theorem C6_newline_drop :
    (∀ (rest : List Char) (buf : List (List Char)),
      buf ≠ [] →
      is_start_of_log_entry (String.mk buf.flatten) = false →
      revScanGo ('\n' :: rest) buf = revScanGo rest buf) ∧
    read_logs_in_desc_order ("x\ny\n").data = ["xy"] := by
  exact ⟨revScan_drop, rfl⟩

/-- Witness for C6 amended at a concrete step: scanning a newline with the
accumulator holding `"b"` leaves the accumulator unchanged. -/
theorem C6_newline_drop_witness :
    revScanGo ('\n' :: ['a']) [['b']] = revScanGo ['a'] [['b']] := by
  exact C6_newline_drop.1 ['a'] [['b']] (by decide) rfl

/-- Counterexample to C7 as stated: on the empty file the reverse scanner
yields one chunk — the empty string — rather than no chunk at all, because
the end-of-file read appends an empty bytes object that makes the buffer
truthy. -/
theorem C7_empty_file_counterexample :
    read_logs_in_desc_order [] = [""] ∧ ([""] : List String) ≠ [] := by
  exact ⟨rfl, by decide⟩

/-- C7 amended: on the empty file the reverse scanner yields exactly one
chunk, the empty string; downstream, `read_logs` discards it as blank, so
the end-to-end `desc` retrieval still returns no entries. -/
theorem C7_empty_file_amended :
    read_logs_in_desc_order [] = [""] ∧
    read_logs [] 100 "INFO" .desc = .ok [] := by
  exact ⟨rfl, rfl⟩

/-- C8: the catalog loop has no per-file error handling, so one failing
file aborts the whole listing — the healthy file `app` is never reported,
even though counting it alone succeeds. -/
theorem C8_catalog_aborts_on_one_failure :
    create_log_files_object
        [⟨"broken", ".log", .error "IOError"⟩,
         ⟨"app", ".log", .ok ("line\n").data⟩]
      = .error "IOError" ∧
    create_log_file_object ⟨"app", ".log", .ok ("line\n").data⟩
      = .ok ⟨"app", 1⟩ := by
  exact ⟨rfl, rfl⟩

/-- C9: a line whose severity token is `TRACE` matches the entry grammar,
but the unguarded `SEVERITY_LEVELS` lookup has no such key, so `read_logs`
raises `KeyError` instead of returning a result. -/
theorem C9_unknown_severity_keyerror :
    parse_log_line "[2024-01-01 00:00:00] [TRACE ] mod: x\n"
      = some ("2024-01-01 00:00:00", "TRACE", "mod", "x\n") ∧
    SEVERITY_LEVELS "TRACE" = none ∧
    read_logs ("[2024-01-01 00:00:00] [TRACE ] mod: x\n").data 100 "INFO" .asc
      = .error "KeyError" := by
  exact ⟨rfl, rfl, rfl⟩

/-- C10: `parse_log_line` matches with `DOTALL`, so for every line ending
in a newline the captured message also ends in that newline; concretely,
the INFO line's message is `"hello\n"`. -/
theorem C10_message_keeps_terminator :
    (∀ (s ts tok src msg : String),
      parse_log_line s = some (ts, tok, src, msg) →
      s.data.getLast? = some '\n' →
      msg.data.getLast? = some '\n') ∧
    parse_log_line "[2024-01-02 03:04:05] [INFO ] mod: hi\n"
      = some ("2024-01-02 03:04:05", "INFO", "mod", "hi\n") := by
  constructor
  · intro s ts tok src msg hp hL
    simp only [parse_log_line, Option.map_eq_some'] at hp
    obtain ⟨⟨ts0, tok0, src0, msg0⟩, hp0, heq⟩ := hp
    have hmsg : msg = String.mk msg0 := by
      simp only [Prod.mk.injEq] at heq
      exact heq.2.2.2.symm
    obtain ⟨hh, hne⟩ := parse_true_elim hp0
    obtain ⟨pre, hpre⟩ := matchHeader_some hh
    rw [hpre, List.getLast?_append_of_ne_nil pre hne] at hL
    rw [hmsg]
    exact hL
  · rfl

/-- Witness for C10 at a concrete input: the captured message `"hi\n"` of
the newline-terminated INFO line ends in the newline. -/
theorem C10_message_keeps_terminator_witness :
    ("hi\n" : String).data.getLast? = some '\n' := by
  exact C10_message_keeps_terminator.1
    "[2024-01-02 03:04:05] [INFO ] mod: hi\n"
    "2024-01-02 03:04:05" "INFO" "mod" "hi\n"
    C10_message_keeps_terminator.2 rfl


/-- Counterexample to C2 as stated: on a file of two well-formed entries,
`desc` retrieval does not return the same `LogEntry` values as reversed
`asc` retrieval — the messages differ by the trailing newline, which the
forward reader keeps and the reverse scanner drops. -/
theorem C2_forward_reverse_counterexample :
    read_logs ("[2024-01-01 00:00:00] [INFO ] mod: hello\n[2024-01-01 00:00:01] [ERROR ] mod: boom\n").data
        2 "CRITICAL" .asc
      = .ok [⟨"2024-01-01 00:00:00", "INFO", "mod", "hello\n"⟩,
             ⟨"2024-01-01 00:00:01", "ERROR", "mod", "boom\n"⟩] ∧
    read_logs ("[2024-01-01 00:00:00] [INFO ] mod: hello\n[2024-01-01 00:00:01] [ERROR ] mod: boom\n").data
        2 "CRITICAL" .desc
      = .ok [⟨"2024-01-01 00:00:01", "ERROR", "mod", "boom"⟩,
             ⟨"2024-01-01 00:00:00", "INFO", "mod", "hello"⟩] ∧
    ([⟨"2024-01-01 00:00:01", "ERROR", "mod", "boom"⟩,
      ⟨"2024-01-01 00:00:00", "INFO", "mod", "hello"⟩] : List LogEntry)
      ≠ [⟨"2024-01-01 00:00:00", "INFO", "mod", "hello\n"⟩,
         ⟨"2024-01-01 00:00:01", "ERROR", "mod", "boom\n"⟩].reverse := by
  exact ⟨rfl, rfl, by decide⟩

/-- C2 amended: for every file of K well-formed single-start entries,
`desc` retrieval with `amount=K, severity=CRITICAL` returns exactly the
reversed `asc` result with each entry's message stripped of its final
character — the trailing newline, which only the forward reader keeps;
the timestamp, severity and source fields agree exactly. -/
theorem C2_forward_reverse_equiv (lines : List (List Char))
    (h : ∀ l ∈ lines, WFLine l) :
    ∃ res,
      read_logs ((lines.map (fun l => l ++ ['\n'])).flatten)
          lines.length "CRITICAL" .asc = .ok res ∧
      read_logs ((lines.map (fun l => l ++ ['\n'])).flatten)
          lines.length "CRITICAL" .desc
        = .ok (res.reverse.map stripLastChar) := by
  by_cases hnil : lines = []
  · subst hnil
    exact ⟨[], rfl, rfl⟩
  · have h50 : SEVERITY_LEVELS "CRITICAL" = some 50 := rfl
    have hgenAsc : read_logs_as_generator
        ((lines.map (fun l => l ++ ['\n'])).flatten) .asc
        = lines.map (fun l => String.mk (l ++ ['\n'])) := by
      show splitLinesKeep _ = _
      exact splitLinesKeep_flatten lines (fun l hl c hc => ((h l hl).2.1 c hc).1)
    have hgenDesc : read_logs_as_generator
        ((lines.map (fun l => l ++ ['\n'])).flatten) .desc
        = lines.reverse.map (fun l => String.mk l) := by
      show read_logs_in_desc_order _ = _
      exact revScan_wf lines h hnil
    have hallAsc : ∀ s ∈ lines.map (fun l => String.mk (l ++ ['\n'])),
        ∃ e lvlE, parsedEntry s = some e ∧
          SEVERITY_LEVELS e.severity = some lvlE ∧ lvlE ≤ 50 := by
      intro s hs
      obtain ⟨l, hl, rfl⟩ := List.mem_map.mp hs
      obtain ⟨ts, tok, src, msg, lvl, hp, hsev, hpe1, hpe2⟩ :=
        parsedEntry_of_WF (h l hl)
      exact ⟨_, lvl, hpe2, hsev, SEVERITY_LEVELS_le_50 hsev⟩
    have hallDesc : ∀ s ∈ lines.reverse.map (fun l => String.mk l),
        ∃ e lvlE, parsedEntry s = some e ∧
          SEVERITY_LEVELS e.severity = some lvlE ∧ lvlE ≤ 50 := by
      intro s hs
      obtain ⟨l, hl, rfl⟩ := List.mem_map.mp hs
      rw [List.mem_reverse] at hl
      obtain ⟨ts, tok, src, msg, lvl, hp, hsev, hpe1, hpe2⟩ :=
        parsedEntry_of_WF (h l hl)
      exact ⟨_, lvl, hpe1, hsev, SEVERITY_LEVELS_le_50 hsev⟩
    have hascRun := readLoop_all_pass 50 lines.length
      (lines.map (fun l => String.mk (l ++ ['\n']))) [] hallAsc (by simp)
    have hdescRun := readLoop_all_pass 50 lines.length
      (lines.reverse.map (fun l => String.mk l)) [] hallDesc (by simp)
    refine ⟨(lines.map (fun l => String.mk (l ++ ['\n']))).filterMap parsedEntry,
      ?_, ?_⟩
    · rw [read_logs_unfold _ _ .asc h50, hgenAsc, hascRun]
      simp
    · rw [read_logs_unfold _ _ .desc h50, hgenDesc, hdescRun]
      congr 1
      rw [List.nil_append]
      rw [← List.filterMap_reverse, ← List.map_reverse]
      rw [List.filterMap_map, List.filterMap_map, List.map_filterMap]
      apply List.filterMap_congr
      intro l hl
      rw [List.mem_reverse] at hl
      obtain ⟨ts, tok, src, msg, lvl, hp, hsev, hpe1, hpe2⟩ :=
        parsedEntry_of_WF (h l hl)
      simp only [Function.comp_apply, hpe1, hpe2, Option.map_some']
      congr 1
      show (⟨String.mk ts, String.mk tok, String.mk src, String.mk msg⟩ : LogEntry)
        = ⟨String.mk ts, String.mk tok, String.mk src,
            String.mk ((msg ++ ['\n']).dropLast)⟩
      rw [List.dropLast_concat]

/-- Witness for C2 amended on a concrete two-entry file. -/
theorem C2_forward_reverse_equiv_witness :
    ∃ res,
      read_logs ((([("[2024-01-01 00:00:00] [INFO ] mod: hello").data,
            ("[2024-01-01 00:00:01] [ERROR ] mod: boom").data]).map
          (fun l => l ++ ['\n'])).flatten)
          ([("[2024-01-01 00:00:00] [INFO ] mod: hello").data,
            ("[2024-01-01 00:00:01] [ERROR ] mod: boom").data]).length
          "CRITICAL" .asc = .ok res ∧
      read_logs ((([("[2024-01-01 00:00:00] [INFO ] mod: hello").data,
            ("[2024-01-01 00:00:01] [ERROR ] mod: boom").data]).map
          (fun l => l ++ ['\n'])).flatten)
          ([("[2024-01-01 00:00:00] [INFO ] mod: hello").data,
            ("[2024-01-01 00:00:01] [ERROR ] mod: boom").data]).length
          "CRITICAL" .desc
        = .ok (res.reverse.map stripLastChar) := by
  apply C2_forward_reverse_equiv
  intro l hl
  simp only [List.mem_cons, List.not_mem_nil, or_false] at hl
  rcases hl with rfl | rfl
  · exact ⟨by decide, by decide, _, _, _, _, _, rfl, rfl⟩
  · exact ⟨by decide, by decide, _, _, _, _, _, rfl, rfl⟩


lemma mk_append (a b : List Char) :
    String.mk a ++ String.mk b = String.mk (a ++ b) := rfl

/-- Counterexample to C5 as stated: a three-line entry retrieved in `desc`
order comes back as one entry whose message is the bare concatenation
`"hellotwothree"` — the line terminators are not preserved. -/
theorem C5_continuation_counterexample :
    read_logs ("[2024-01-01 00:00:00] [INFO ] mod: hello\ntwo\nthree\n").data
        10 "CRITICAL" .desc
      = .ok [⟨"2024-01-01 00:00:00", "INFO", "mod", "hellotwothree"⟩] ∧
    ("hellotwothree" : String) ≠ "hello\ntwo\nthree\n" := by
  exact ⟨rfl, by decide⟩

/-- C5 amended: an entry spanning start line L1 and continuation lines L2,
L3 is reassembled into a single entry in either order, but the message
differs: in `asc` order each line's terminator is preserved
(`msg ++ "\n" ++ L2 ++ "\n" ++ L3 ++ "\n"`), while in `desc` order the
reverse scanner drops the newlines (`msg ++ L2 ++ L3`). -/
theorem C5_continuation_law (l1 c2 c3 : List Char) (n : Nat) (sev : String)
    (lvl : Nat) (ts tok src msg : List Char) (lvlE : Nat)
    (hp : parseLogLineChars true l1 = some (ts, tok, src, msg))
    (hsevq : SEVERITY_LEVELS sev = some lvl)
    (hsevE : SEVERITY_LEVELS (String.mk tok) = some lvlE)
    (hgate : lvlE ≤ lvl)
    (hn : 1 ≤ n)
    (hl1n : ∀ c ∈ l1, c ≠ '\n')
    (hc2n : ∀ c ∈ c2, c ≠ '\n') (hc3n : ∀ c ∈ c3, c ≠ '\n')
    (hs3 : is_start_of_log_entry (String.mk c3) = false)
    (hs23 : is_start_of_log_entry (String.mk (c2 ++ c3)) = false)
    (hp2 : parse_log_line (String.mk (c2 ++ ['\n'])) = none)
    (hp3 : parse_log_line (String.mk (c3 ++ ['\n'])) = none)
    (hb2 : (String.mk (c2 ++ ['\n'])).data.all isSpaceChar = false)
    (hb3 : (String.mk (c3 ++ ['\n'])).data.all isSpaceChar = false) :
    read_logs (l1 ++ ('\n' :: (c2 ++ ('\n' :: (c3 ++ ['\n']))))) n sev .asc
      = .ok [⟨String.mk ts, String.mk tok, String.mk src,
          String.mk (msg ++ ('\n' :: (c2 ++ ('\n' :: (c3 ++ ['\n'])))))⟩] ∧
    read_logs (l1 ++ ('\n' :: (c2 ++ ('\n' :: (c3 ++ ['\n']))))) n sev .desc
      = .ok [⟨String.mk ts, String.mk tok, String.mk src,
          String.mk (msg ++ (c2 ++ c3))⟩] := by
  have hps1 : parse_log_line (String.mk (l1 ++ ['\n']))
      = some (String.mk ts, String.mk tok, String.mk src,
          String.mk (msg ++ ['\n'])) := by
    have hd : (String.mk (l1 ++ ['\n'])).data = l1 ++ ['\n'] := rfl
    simp [parse_log_line, hd, parse_true_append ['\n'] hp]
  constructor
  · -- ascending order
    rw [read_logs_unfold _ _ .asc hsevq]
    have hgen : read_logs_as_generator
        (l1 ++ ('\n' :: (c2 ++ ('\n' :: (c3 ++ ['\n']))))) .asc
        = [String.mk (l1 ++ ['\n']), String.mk (c2 ++ ['\n']),
           String.mk (c3 ++ ['\n'])] := by
      show splitLinesKeep _ = _
      rw [splitLinesKeep, splitLinesKeepAux_term l1 _ [] hl1n,
        splitLinesKeepAux_term c2 _ [] hc2n,
        splitLinesKeepAux_term c3 _ [] hc3n]
      simp [splitLinesKeepAux]
    rw [hgen]
    rw [readLoop_start_step lvl n _ _ [] (String.mk ts) (String.mk tok)
      (String.mk src) (String.mk (msg ++ ['\n'])) lvlE hps1 hsevE
      (by simpa using hn)]
    rw [if_pos hgate, List.nil_append]
    rw [readLoop_cont_step lvl n _ _
      [⟨String.mk ts, String.mk tok, String.mk src, String.mk (msg ++ ['\n'])⟩]
      ⟨String.mk ts, String.mk tok, String.mk src, String.mk (msg ++ ['\n'])⟩
      lvlE hp2 hb2 (by simp) hsevE hgate]
    simp only [List.dropLast_single, List.nil_append]
    rw [readLoop_cont_step lvl n _ _
      [⟨String.mk ts, String.mk tok, String.mk src,
        String.mk (msg ++ ['\n']) ++ String.mk (c2 ++ ['\n'])⟩]
      ⟨String.mk ts, String.mk tok, String.mk src,
        String.mk (msg ++ ['\n']) ++ String.mk (c2 ++ ['\n'])⟩
      lvlE hp3 hb3 (by simp) hsevE hgate]
    simp only [List.dropLast_single, List.nil_append, readLoop]
    simp [mk_append, List.append_assoc]
  · -- descending order
    rw [read_logs_unfold _ _ .desc hsevq]
    have hgen : read_logs_as_generator
        (l1 ++ ('\n' :: (c2 ++ ('\n' :: (c3 ++ ['\n']))))) .desc
        = [String.mk (l1 ++ (c2 ++ c3))] := by
      show read_logs_in_desc_order _ = _
      rw [read_logs_in_desc_order]
      rw [show (l1 ++ ('\n' :: (c2 ++ ('\n' :: (c3 ++ ['\n']))))).reverse
        = '\n' :: (c3.reverse ++ ('\n' :: (c2.reverse ++ ('\n' :: l1.reverse))))
        from by simp]
      rw [revScan_drop _ [[]] (by simp) rfl]
      rw [revScan_accum c3.reverse _ [[]]
        (fun c hc => hc3n c (List.mem_reverse.mp hc))]
      rw [List.map_reverse, List.reverse_reverse]
      have hf3 : ((c3.map (fun c => [c])) ++ [[]]).flatten = c3 := by
        simp [flatten_map_singleton]
      have hs3x : is_start_of_log_entry
          (String.mk (((c3.map (fun c => [c])) ++ [[]]).flatten)) = false := by
        rw [hf3]; exact hs3
      rw [revScan_drop _ ((c3.map (fun c => [c])) ++ [[]]) (by simp) hs3x]
      rw [revScan_accum c2.reverse _ _
        (fun c hc => hc2n c (List.mem_reverse.mp hc))]
      rw [List.map_reverse, List.reverse_reverse]
      have hf23 : ((c2.map (fun c => [c])) ++
          ((c3.map (fun c => [c])) ++ [[]])).flatten = c2 ++ c3 := by
        simp [flatten_map_singleton]
      have hs23x : is_start_of_log_entry
          (String.mk (((c2.map (fun c => [c])) ++
            ((c3.map (fun c => [c])) ++ [[]])).flatten)) = false := by
        rw [hf23]; exact hs23
      rw [revScan_drop _ ((c2.map (fun c => [c])) ++ ((c3.map (fun c => [c])) ++ [[]]))
        (by simp) hs23x]
      rw [show l1.reverse = l1.reverse ++ ([] : List Char) from
        (List.append_nil l1.reverse).symm]
      rw [revScan_accum l1.reverse [] _
        (fun c hc => hl1n c (List.mem_reverse.mp hc))]
      rw [List.map_reverse, List.reverse_reverse]
      simp only [revScanGo]
      rw [if_neg (by simp)]
      have hf123 : ((l1.map (fun c => [c])) ++ ((c2.map (fun c => [c])) ++
          ((c3.map (fun c => [c])) ++ [[]]))).flatten = l1 ++ (c2 ++ c3) := by
        simp [flatten_map_singleton]
      rw [hf123]
    rw [hgen]
    have hps : parse_log_line (String.mk (l1 ++ (c2 ++ c3)))
        = some (String.mk ts, String.mk tok, String.mk src,
            String.mk (msg ++ (c2 ++ c3))) := by
      have hd : (String.mk (l1 ++ (c2 ++ c3))).data = l1 ++ (c2 ++ c3) := rfl
      simp [parse_log_line, hd, parse_true_append (c2 ++ c3) hp]
    rw [readLoop_start_step lvl n _ _ [] (String.mk ts) (String.mk tok)
      (String.mk src) (String.mk (msg ++ (c2 ++ c3))) lvlE hps hsevE
      (by simpa using hn)]
    rw [if_pos hgate, List.nil_append]
    rfl

/-- Witness for C5 amended on a concrete three-line entry. -/
theorem C5_continuation_law_witness :
    read_logs (("[2024-01-01 00:00:00] [INFO ] mod: hello").data ++
        ('\n' :: (("two").data ++ ('\n' :: (("three").data ++ ['\n'])))))
        10 "INFO" .asc
      = .ok [⟨"2024-01-01 00:00:00", "INFO", "mod",
          String.mk (("hello").data ++
            ('\n' :: (("two").data ++ ('\n' :: (("three").data ++ ['\n'])))))⟩] ∧
    read_logs (("[2024-01-01 00:00:00] [INFO ] mod: hello").data ++
        ('\n' :: (("two").data ++ ('\n' :: (("three").data ++ ['\n'])))))
        10 "INFO" .desc
      = .ok [⟨"2024-01-01 00:00:00", "INFO", "mod",
          String.mk (("hello").data ++ (("two").data ++ ("three").data))⟩] := by
  exact C5_continuation_law ("[2024-01-01 00:00:00] [INFO ] mod: hello").data
    ("two").data ("three").data 10 "INFO" 20
    ("2024-01-01 00:00:00").data ("INFO").data ("mod").data ("hello").data 20
    rfl rfl rfl (by decide) (by decide)
    (by decide) (by decide) (by decide)
    rfl rfl rfl rfl rfl rfl


end LogUtils
